import Mathlib

/-!
# CloudIntelligence attack-path / blast-radius engine: a shallow embedding

This file embeds `backend/app/services/security/attack_path.py`
(`AttackPathAnalyzer`) in Lean 4 and proves properties of the embedded
functions.

Modelling conventions:
* Python floats (risk scores, edge weights) are modelled as `ℚ`; every value
  occurring in the program and in the claims is exactly representable.
* The `NodeType` / `EdgeType` enums are identified with their string values
  (the enum wrapper is a value-preserving bijection that no analysed function
  inspects beyond its value).
* Open `properties` bags are modelled as association lists of strings; no
  analysed function reads them, they are only carried through.
* `networkx` is an external library; `nx.all_simple_paths` and
  `nx.descendants` are modelled by their library semantics:
  - `all_simple_paths(G, s, t, cutoff)` raises `NodeNotFound` when `s` is not
    a node of `G`; when `t` is not a node, the string `t` is treated as an
    iterable of targets, i.e. the set of its single-character strings; it
    yields exactly the simple directed paths from `s` to a target with at
    most `cutoff` edges, and yields nothing when `s` is itself a target.
    `NetworkXNoPath` is never raised by it.
  - `descendants(G, s)` is the set of nodes reachable from `s`, excluding `s`
    itself; here computed as a saturation of the one-step successor map,
    iterated enough times to reach its fixed point.
* Python's `list.sort(key=..., reverse=True)` is a stable descending sort;
  the output of a stable sort is uniquely determined by the input order and
  the key, so it is modelled by `List.insertionSort` with the relation
  `key b ≤ key a`, which Mathlib shows is a stable sort.
* Exceptions are modelled with `Except`: a raised Python exception is an
  `Except.error` value, and `try/except` clauses become matches that handle
  exactly the exception classes the Python code catches.
-/

namespace CloudIntelligence

/-- Attributes stored on a graph node by `build_attack_graph`
(`self.graph.add_node(node.id, type=..., name=..., ...)`). -/
structure NodeData where
  id : String
  type : String
  name : String
  account_id : String
  region : String
  risk_score : ℚ
  criticality : String
  properties : List (String × String)
  deriving DecidableEq

/-- Attributes stored on a graph edge by `build_attack_graph`
(`self.graph.add_edge(source, target, type=..., weight=..., properties=...)`). -/
structure EdgeData where
  source_id : String
  target_id : String
  type : String
  weight : ℚ
  properties : List (String × String)
  deriving DecidableEq

/-- The in-memory `nx.DiGraph`: node attribute table plus directed edge list,
both in insertion order. -/
structure Graph where
  nodes : List NodeData
  edges : List EdgeData
  deriving DecidableEq

namespace Graph

/-- Attribute lookup `self.graph.nodes[node_id]`, as an `Option`. -/
def findNode (G : Graph) (id : String) : Option NodeData :=
  G.nodes.find? (fun n => n.id == id)

/-- Python `node_id in self.graph`. -/
def hasNode (G : Graph) (id : String) : Bool :=
  (G.findNode id).isSome

/-- Placeholder attribute record; never reached on the well-formed graphs the
analyser builds (every node id looked up is present). -/
def defaultNode : NodeData :=
  { id := "", type := "", name := "", account_id := "", region := "",
    risk_score := 0, criticality := "", properties := [] }

/-- Total version of `self.graph.nodes[node_id]`. -/
def nodeData (G : Graph) (id : String) : NodeData :=
  (G.findNode id).getD defaultNode

/-- `self.graph[source][target]`, as an `Option`. -/
def findEdge (G : Graph) (s t : String) : Option EdgeData :=
  G.edges.find? (fun e => e.source_id == s && e.target_id == t)

/-- Placeholder edge record, analogous to `defaultNode`. -/
def defaultEdge : EdgeData :=
  { source_id := "", target_id := "", type := "", weight := 1, properties := [] }

/-- Total version of `self.graph[source][target]`. -/
def edgeData (G : Graph) (s t : String) : EdgeData :=
  (G.findEdge s t).getD defaultEdge

/-- `iter(G[u])`: successors of `u` in edge-insertion order. -/
def successors (G : Graph) (u : String) : List String :=
  (G.edges.filter (fun e => e.source_id == u)).map (fun e => e.target_id)

end Graph

/-- The `networkx` exception classes the analysed code distinguishes:
`NetworkXNoPath` (caught by `find_attack_paths`) and `NodeNotFound`
(not caught anywhere). -/
inductive NXError where
  | noPath : NXError
  | nodeNotFound : String → NXError
  deriving DecidableEq

/-- Python `set(target)` for a string `target`: the set of single-character
strings of `target` (how `all_simple_paths` interprets a target that is not a
node of the graph). -/
def charTargets (t : String) : List String :=
  t.toList.map (fun c => String.mk [c])

/-- The depth-first enumeration inside `nx.all_simple_paths`
(`_all_simple_paths_graph`): all extensions of the simple path `visited`
(whose last node is `current`) by at most `fuel` further edges that end in a
member of `targets`, in successor order. -/
def simplePathsAux (G : Graph) (targets : List String) :
    Nat → List String → String → List (List String)
  | 0, _, _ => []
  | fuel + 1, visited, current =>
    ((G.successors current).map (fun child =>
      if child ∈ visited then []
      else
        (if child ∈ targets then [visited ++ [child]] else []) ++
          simplePathsAux G targets fuel (visited ++ [child]) child)).flatten

/-- The target set `nx.all_simple_paths` searches for: `{target}` when
`target` is a node, otherwise (string iteration) the set of its characters. -/
def nxTargets (G : Graph) (target : String) : List String :=
  if G.hasNode target then [target] else charTargets target

/-- `nx.all_simple_paths(G, source, target, cutoff)`.  Raises `NodeNotFound`
when `source` is absent; a missing string `target` is silently treated as the
set of its characters; yields nothing when `source` is among the targets or
`cutoff < 1`. -/
def all_simple_paths (G : Graph) (source target : String) (cutoff : Nat) :
    Except NXError (List (List String)) :=
  if G.hasNode source = false then
    Except.error (NXError.nodeNotFound source)
  else if source ∈ nxTargets G target then Except.ok []
  else if cutoff < 1 then Except.ok []
  else Except.ok (simplePathsAux G (nxTargets G target) cutoff [source] source)

/-- The `AttackNode` dataclass (type field holds the enum's string value). -/
structure AttackNode where
  id : String
  type : String
  name : String
  account_id : String
  region : String
  properties : List (String × String)
  risk_score : ℚ
  criticality : String
  deriving DecidableEq

/-- The `AttackEdge` dataclass. -/
structure AttackEdge where
  source_id : String
  target_id : String
  type : String
  properties : List (String × String)
  weight : ℚ
  deriving DecidableEq

/-- The `AttackPath` dataclass. -/
structure AttackPath where
  nodes : List AttackNode
  edges : List AttackEdge
  total_risk : ℚ
  path_length : Nat
  critical_nodes : List String
  deriving DecidableEq

/-- `AttackPathAnalyzer._path_to_attack_path`: convert a node-id path into an
`AttackPath`.  The Python single pass accumulating `nodes`, `total_risk` and
`critical_nodes` in order is rendered as three order-preserving traversals. -/
def path_to_attack_path (G : Graph) (path : List String) : AttackPath :=
  let nodes := path.map (fun node_id =>
    let nd := G.nodeData node_id
    ({ id := node_id, type := nd.type, name := nd.name,
       account_id := nd.account_id, region := nd.region,
       properties := nd.properties, risk_score := nd.risk_score,
       criticality := nd.criticality } : AttackNode))
  let total_risk := (path.map (fun node_id => (G.nodeData node_id).risk_score)).sum
  let critical_nodes := path.filter (fun node_id =>
    (G.nodeData node_id).criticality == "high" ||
      (G.nodeData node_id).criticality == "critical")
  let edges := (path.zip path.tail).map (fun st =>
    let ed := G.edgeData st.1 st.2
    ({ source_id := st.1, target_id := st.2, type := ed.type,
       properties := ed.properties, weight := ed.weight } : AttackEdge))
  { nodes := nodes, edges := edges, total_risk := total_risk,
    path_length := edges.length, critical_nodes := critical_nodes }

/-- Python truthiness of the optional id arguments (`if source_node_id and
target_node_id:`): present and non-empty. -/
def truthy : Option String → Bool
  | none => false
  | some s => !s.isEmpty

/-- The sort key relation of `paths.sort(key=lambda x: x.total_risk,
reverse=True)`: `a` may precede `b` iff `b.total_risk ≤ a.total_risk`. -/
def riskGE (a b : AttackPath) : Prop :=
  b.total_risk ≤ a.total_risk

instance : DecidableRel riskGE := fun a b =>
  inferInstanceAs (Decidable (b.total_risk ≤ a.total_risk))

instance : IsTotal AttackPath riskGE :=
  ⟨fun a b => le_total b.total_risk a.total_risk⟩

instance : IsTrans AttackPath riskGE :=
  ⟨fun _ _ _ hab hbc => le_trans hbc hab⟩

/-- `paths.sort(key=lambda x: x.total_risk, reverse=True)`: Python's sort is
stable, and a stable descending sort has one possible output, realised by
insertion sort with `riskGE`. -/
def sortByRiskDesc (l : List AttackPath) : List AttackPath :=
  l.insertionSort riskGE

/-- The `i < j` ordered pairs traversed by the two nested loops of the
automatic mode (`for i in range(n): for j in range(i+1, n):`). -/
def orderedPairs {α : Type} : List α → List (α × α)
  | [] => []
  | x :: xs => (xs.map (fun y => (x, y))) ++ orderedPairs xs

/-- One search of the big `try`/`except nx.NetworkXNoPath` blocks in
`find_attack_paths`: run `all_simple_paths`, convert each found path, and
append to the accumulator; `NetworkXNoPath` is caught (skip), any other
exception propagates. -/
def searchInto (G : Graph) (maxLen : Nat) (acc : List AttackPath)
    (source target : String) : Except NXError (List AttackPath) :=
  match all_simple_paths G source target maxLen with
  | Except.ok ps => Except.ok (acc ++ ps.map (path_to_attack_path G))
  | Except.error NXError.noPath => Except.ok acc
  | Except.error e => Except.error e

/-- The three search modes of `find_attack_paths`, before ranking. -/
def rawAttackPaths (G : Graph) (source_node_id target_node_id : Option String)
    (max_path_length : Nat) : Except NXError (List AttackPath) :=
  if truthy source_node_id && truthy target_node_id then
    searchInto G max_path_length [] (source_node_id.getD "") (target_node_id.getD "")
  else if truthy source_node_id then
    let high_value_nodes := (G.nodes.filter (fun n =>
      n.criticality == "high" || n.criticality == "critical")).map (fun n => n.id)
    high_value_nodes.foldlM (fun acc target =>
      searchInto G max_path_length acc (source_node_id.getD "") target) []
  else
    let critical_nodes := (G.nodes.filter (fun n =>
      n.criticality == "critical")).map (fun n => n.id)
    (orderedPairs critical_nodes).foldlM (fun acc st =>
      searchInto G max_path_length acc st.1 st.2) []

/-- `AttackPathAnalyzer.find_attack_paths`: search (one of three modes), then
`paths.sort(key=lambda x: x.total_risk, reverse=True)` and `paths[:20]`. -/
def find_attack_paths (G : Graph) (source_node_id target_node_id : Option String)
    (max_path_length : Nat := 5) : Except NXError (List AttackPath) :=
  (rawAttackPaths G source_node_id target_node_id max_path_length).map
    (fun paths => (sortByRiskDesc paths).take 20)

/-! ## Blast radius -/

/-- Set insertion for duplicate-free lists: append unless already present. -/
def insertNew (acc : List String) (t : String) : List String :=
  if t ∈ acc then acc else acc ++ [t]

/-- One saturation step of forward reachability: the set together with the
targets of all edges leaving it (sets are duplicate-free lists; new elements
are appended). -/
def reachStep (G : Graph) (S : List String) : List String :=
  ((G.edges.filter (fun e => e.source_id ∈ S)).map (fun e => e.target_id)).foldl
    insertNew S

/-- All nodes reachable from `s` (including `s`): the saturation reaches its
fixed point within `|edges| + 1` steps. -/
def reachList (G : Graph) (s : String) : List String :=
  (reachStep G)^[G.edges.length + 1] [s]

/-- `nx.descendants(G, s)`: every node reachable from `s`, excluding `s`. -/
def descendants (G : Graph) (s : String) : List String :=
  (reachList G s).filter (fun x => x ≠ s)

/-- An entry of the `high_value_targets` list built by
`calculate_blast_radius`. -/
structure HighValueTarget where
  id : String
  name : String
  type : String
  risk_score : ℚ
  deriving DecidableEq

/-- The successful result dict of `calculate_blast_radius`. -/
structure BlastRadius where
  node_id : String
  node_name : String
  node_type : String
  reachable_nodes : Nat
  critical_reachable : Nat
  average_risk : ℚ
  total_risk : ℚ
  high_value_targets : List HighValueTarget
  recommendations : List String
  deriving DecidableEq

/-- `AttackPathAnalyzer._generate_blast_radius_recommendations`. -/
def generate_blast_radius_recommendations (G : Graph) (node_id : String)
    (reachableCount : Nat) : List String :=
  let node_data := G.nodeData node_id
  let recommendations :=
    if node_data.type == "iam_role" then
      if node_data.criticality == "critical" then
        ["Apply principle of least privilege to IAM role",
         "Add conditional IAM policies to restrict access",
         "Enable IAM Access Analyzer for policy validation"]
      else []
    else if node_data.type == "ec2_instance" then
      if 10 < reachableCount then
        ["Restrict IAM instance profile permissions",
         "Move instance to private subnet",
         "Implement network segmentation"]
      else []
    else if node_data.type == "s3_bucket" then
      ["Enable S3 Block Public Access",
       "Implement S3 bucket policies with conditions",
       "Enable S3 access logging"]
    else []
  if 20 < reachableCount then
    recommendations ++
      ["Consider implementing Zero Trust architecture",
       "Review and reduce cross-service permissions",
       "Implement just-in-time access for sensitive resources"]
  else recommendations

/-- `AttackPathAnalyzer.calculate_blast_radius`.  The Python iteration over
the `reachable` set (a Python `set`, unspecified order) is modelled by
iterating its elements in saturation-discovery order; every reported quantity
except the order of `high_value_targets` is order-independent. -/
def calculate_blast_radius (G : Graph) (node_id : String) :
    Except String BlastRadius :=
  if G.hasNode node_id = false then Except.error "Node not found"
  else
    let reachable := descendants G node_id
    let acc := reachable.foldl
      (fun (acc : ℚ × Nat × List HighValueTarget) node =>
        let nd := G.nodeData node
        let total := acc.1 + nd.risk_score
        if nd.criticality == "high" || nd.criticality == "critical" then
          (total, acc.2.1 + 1,
            acc.2.2 ++ [{ id := node, name := nd.name, type := nd.type,
                          risk_score := nd.risk_score }])
        else (total, acc.2.1, acc.2.2))
      (0, 0, [])
    let total_risk := acc.1
    let critical_count := acc.2.1
    let high_value_targets := acc.2.2
    let avg_risk := if reachable.isEmpty then 0 else total_risk / reachable.length
    Except.ok
      { node_id := node_id,
        node_name := (G.nodeData node_id).name,
        node_type := (G.nodeData node_id).type,
        reachable_nodes := reachable.length,
        critical_reachable := critical_count,
        average_risk := avg_risk,
        total_risk := total_risk,
        high_value_targets := high_value_targets,
        recommendations :=
          generate_blast_radius_recommendations G node_id reachable.length }

/-! ## Visualization -/

/-- A node entry of the D3.js payload built by `visualize_graph`. -/
structure VizNode where
  id : String
  name : String
  type : String
  group : String
  risk_score : ℚ
  criticality : String
  account_id : String
  region : String
  size : Nat
  deriving DecidableEq

/-- A link entry of the D3.js payload. -/
structure VizLink where
  source : String
  target : String
  type : String
  weight : ℚ
  value : ℚ
  deriving DecidableEq

/-- The `{nodes, links}` payload. -/
structure VizPayload where
  nodes : List VizNode
  links : List VizLink
  deriving DecidableEq

/-- `AttackPathAnalyzer._calculate_node_size`. -/
def calculate_node_size (node_data : NodeData) : Nat :=
  let risk_score := node_data.risk_score
  if risk_score > 80 then 20
  else if risk_score > 60 then 15
  else if risk_score > 40 then 10
  else 5

/-- `AttackPathAnalyzer.visualize_graph`. -/
def visualize_graph (G : Graph) : VizPayload :=
  { nodes := G.nodes.map (fun data =>
      { id := data.id, name := data.name, type := data.type,
        group := data.type, risk_score := data.risk_score,
        criticality := data.criticality, account_id := data.account_id,
        region := data.region, size := calculate_node_size data }),
    links := G.edges.map (fun data =>
      { source := data.source_id, target := data.target_id,
        type := data.type, weight := data.weight, value := data.weight }) }

/-! ## Graph construction (`build_attack_graph` and the discovery mocks) -/

/-- The fields of `CloudAccount` that the analyser reads. -/
structure CloudAccount where
  account_id : String
  regions : List String
  deriving DecidableEq

/-- `account.regions[0] if account.regions else 'us-east-1'`. -/
def CloudAccount.firstRegion (a : CloudAccount) : String :=
  a.regions.headD "us-east-1"

/-- `AttackPathAnalyzer._analyze_iam` (deterministic mock data; the nested
policy document is carried as one serialized property entry). -/
def analyze_iam (a : CloudAccount) : List AttackNode × List AttackEdge :=
  let admin_role : AttackNode :=
    { id := "arn:aws:iam::" ++ a.account_id ++ ":role/AdminRole",
      type := "iam_role", name := "AdminRole", account_id := a.account_id,
      region := "global",
      properties :=
        [("assume_role_policy", "sts:AssumeRole from account root"),
         ("attached_policies", "AdministratorAccess"),
         ("trusted_entities", "root")],
      risk_score := 90, criticality := "critical" }
  let admin_user : AttackNode :=
    { id := "arn:aws:iam::" ++ a.account_id ++ ":user/AdminUser",
      type := "iam_user", name := "AdminUser", account_id := a.account_id,
      region := "global",
      properties :=
        [("policies", "AdministratorAccess"), ("access_keys", "2"),
         ("mfa_enabled", "False")],
      risk_score := 85, criticality := "critical" }
  ([admin_role, admin_user],
   [{ source_id := admin_user.id, target_id := admin_role.id,
      type := "can_assume",
      properties := [("permission", "sts:AssumeRole"), ("condition", "None")],
      weight := 8/10 }])

/-- `AttackPathAnalyzer._analyze_ec2`. -/
def analyze_ec2 (a : CloudAccount) : List AttackNode × List AttackEdge :=
  let ec2_instance : AttackNode :=
    { id := "arn:aws:ec2:" ++ a.firstRegion ++ ":" ++ a.account_id ++
        ":instance/i-1234567890",
      type := "ec2_instance", name := "web-server-1",
      account_id := a.account_id, region := a.firstRegion,
      properties :=
        [("instance_type", "t3.large"), ("public_ip", "54.123.45.67"),
         ("security_groups", "sg-12345678"),
         ("iam_instance_profile",
           "arn:aws:iam::" ++ a.account_id ++ ":instance-profile/WebServerProfile"),
         ("tags", "Name=web-server-1,Environment=production")],
      risk_score := 70, criticality := "high" }
  ([ec2_instance],
   [{ source_id := "arn:aws:iam::" ++ a.account_id ++ ":role/AdminRole",
      target_id := ec2_instance.id, type := "can_access",
      properties := [("permission", "ec2:*"), ("condition", "None")],
      weight := 9/10 }])

/-- `AttackPathAnalyzer._analyze_s3`. -/
def analyze_s3 (a : CloudAccount) : List AttackNode × List AttackEdge :=
  let s3_bucket : AttackNode :=
    { id := "arn:aws:s3:::customer-data-" ++ a.account_id,
      type := "s3_bucket", name := "customer-data-" ++ a.account_id,
      account_id := a.account_id, region := "us-east-1",
      properties :=
        [("encryption", "AES-256"), ("versioning", "Enabled"),
         ("public_access", "False"), ("sensitive_data", "True"),
         ("tags", "Classification=Confidential,Department=Finance")],
      risk_score := 80, criticality := "critical" }
  ([s3_bucket],
   [{ source_id := "arn:aws:ec2:" ++ a.firstRegion ++ ":" ++ a.account_id ++
        ":instance/i-1234567890",
      target_id := s3_bucket.id, type := "can_access",
      properties := [("permission", "s3:GetObject"), ("condition", "None")],
      weight := 7/10 }])

/-- `AttackPathAnalyzer._analyze_lambda`. -/
def analyze_lambda (a : CloudAccount) : List AttackNode × List AttackEdge :=
  let lambda_func : AttackNode :=
    { id := "arn:aws:lambda:" ++ a.firstRegion ++ ":" ++ a.account_id ++
        ":function:data-processor",
      type := "lambda_function", name := "data-processor",
      account_id := a.account_id, region := a.firstRegion,
      properties :=
        [("runtime", "python3.9"), ("memory_mb", "512"),
         ("timeout_seconds", "300"),
         ("environment_variables", "DB_PASSWORD=encrypted"),
         ("vpc_config", "subnet-12345678,sg-12345678")],
      risk_score := 60, criticality := "medium" }
  ([lambda_func],
   [{ source_id := lambda_func.id,
      target_id := "arn:aws:s3:::customer-data-" ++ a.account_id,
      type := "can_access",
      properties := [("permission", "s3:*"), ("condition", "None")],
      weight := 8/10 }])

/-- `AttackPathAnalyzer._analyze_network` (returns no edges). -/
def analyze_network (_a : CloudAccount) : List AttackEdge :=
  []

/-- The per-account accumulation loop of `build_attack_graph`. -/
def discover (accounts : List CloudAccount) : List AttackNode × List AttackEdge :=
  accounts.foldl
    (fun (acc : List AttackNode × List AttackEdge) a =>
      let iam := analyze_iam a
      let ec2 := analyze_ec2 a
      let s3 := analyze_s3 a
      let lam := analyze_lambda a
      let net := analyze_network a
      (acc.1 ++ iam.1 ++ ec2.1 ++ s3.1 ++ lam.1,
       acc.2 ++ iam.2 ++ ec2.2 ++ s3.2 ++ lam.2 ++ net))
    ([], [])

/-- `self.graph.add_node(node.id, ...)`: insert, or overwrite the attributes
of an existing node with the same id. -/
def Graph.addNode (G : Graph) (n : NodeData) : Graph :=
  if G.hasNode n.id then
    { G with nodes := G.nodes.map (fun m => if m.id == n.id then n else m) }
  else
    { G with nodes := G.nodes ++ [n] }

/-- `self.graph.add_edge(u, v, ...)`: insert, or overwrite the attributes of
an existing `(u, v)` edge.  (`nx` would also create attribute-less endpoint
nodes when missing; `build_attack_graph` always adds every endpoint as a node
first, so that branch is modelled by inserting placeholder attributes and is
never exercised.) -/
def Graph.addEdge (G : Graph) (e : EdgeData) : Graph :=
  let G1 := if G.hasNode e.source_id then G
    else { G with nodes := G.nodes ++ [{ Graph.defaultNode with id := e.source_id }] }
  let G2 := if G1.hasNode e.target_id then G1
    else { G1 with nodes := G1.nodes ++ [{ Graph.defaultNode with id := e.target_id }] }
  if (G2.findEdge e.source_id e.target_id).isSome then
    { G2 with edges := G2.edges.map (fun d =>
        if d.source_id == e.source_id && d.target_id == e.target_id then e else d) }
  else
    { G2 with edges := G2.edges ++ [e] }

/-- The node attributes `build_attack_graph` stores for an `AttackNode`. -/
def AttackNode.toNodeData (n : AttackNode) : NodeData :=
  { id := n.id, type := n.type, name := n.name, account_id := n.account_id,
    region := n.region, risk_score := n.risk_score,
    criticality := n.criticality, properties := n.properties }

/-- The edge attributes `build_attack_graph` stores for an `AttackEdge`. -/
def AttackEdge.toEdgeData (e : AttackEdge) : EdgeData :=
  { source_id := e.source_id, target_id := e.target_id, type := e.type,
    weight := e.weight, properties := e.properties }

/-- The summary dict `build_attack_graph` returns on success. -/
structure BuildSummary where
  nodes : Nat
  edges : Nat
  accounts : Nat
  deriving DecidableEq

/-- `AttackPathAnalyzer.build_attack_graph`.  Discovery data is determined by
the accounts; the Neo4j replication performed by `_sync_to_neo4j` is external
I/O whose outcome is the `syncResult` argument.  The in-memory graph is fully
populated before the sync is awaited; the sync is not wrapped in any
`try`/`except`, so a failing sync makes the whole call raise (`Except.error`)
and the summary dict is not returned — the populated graph (the analyser's
mutated state) is returned in either case. -/
def build_attack_graph (accounts : List CloudAccount)
    (syncResult : Except String Unit) :
    Graph × Except String BuildSummary :=
  let d := discover accounts
  let nodes := d.1
  let edges := d.2
  let G0 := nodes.foldl (fun G n => G.addNode n.toNodeData) ⟨[], []⟩
  let G1 := edges.foldl (fun G e => G.addEdge e.toEdgeData) G0
  match syncResult with
  | Except.error e => (G1, Except.error e)
  | Except.ok _ =>
    (G1, Except.ok { nodes := nodes.length, edges := edges.length,
                     accounts := accounts.length })

/-! ## Specification-side definitions -/

/-- One directed edge step of the graph. -/
def Adj (G : Graph) (u v : String) : Prop :=
  ∃ e ∈ G.edges, e.source_id = u ∧ e.target_id = v

/-- Reachability along directed paths of any length: the specification-side
transitive closure, written independently of the saturation loop. -/
def Reaches (G : Graph) : String → String → Prop :=
  Relation.ReflTransGen (Adj G)

/-- The display-size step function exactly as the specification words it:
`>80→20, >60→15, >40→10, else 5`. -/
def sizeSpec (risk : ℚ) : Nat :=
  if risk > 80 then 20
  else if risk > 60 then 15
  else if risk > 40 then 10
  else 5

/-- Replace an edge's weight by the default `1.0`, keeping everything else:
used to state weight-independence. -/
def AttackEdge.stripWeight (e : AttackEdge) : AttackEdge :=
  { e with weight := 1 }

/-- Same weight-erasure on stored edge attributes. -/
def EdgeData.stripWeight (e : EdgeData) : EdgeData :=
  { e with weight := 1 }

/-- Strip the weights of all edges of an `AttackPath`. -/
def AttackPath.stripWeight (p : AttackPath) : AttackPath :=
  { p with edges := p.edges.map AttackEdge.stripWeight }

/-- Two edge records that agree on everything except possibly the weight. -/
def EdgeData.sameButWeight (e1 e2 : EdgeData) : Prop :=
  e1.source_id = e2.source_id ∧ e1.target_id = e2.target_id ∧
    e1.type = e2.type ∧ e1.properties = e2.properties

/-- Two graphs identical except for the weight attributes of their edges. -/
def Graph.WeightVariant (G1 G2 : Graph) : Prop :=
  G1.nodes = G2.nodes ∧ List.Forall₂ EdgeData.sameButWeight G1.edges G2.edges

/-- The path list a successful bounded simple-path search yields (`[]` when
the search raises). -/
def boundedSimplePaths (G : Graph) (a b : String) (L : Nat) : List (List String) :=
  ((all_simple_paths G a b L).toOption).getD []

/-! ## Concrete inputs for the executable checks -/

/-- The graph of spec Scenario A: `UserX` (risk 85, critical) and `RoleY`
(risk 90, critical) with the single `can_assume` edge `UserX → RoleY`. -/
def scenAGraph : Graph :=
  { nodes := [
      { id := "UserX", type := "iam_user", name := "UserX", account_id := "111",
        region := "global", risk_score := 85, criticality := "critical",
        properties := [] },
      { id := "RoleY", type := "iam_role", name := "RoleY", account_id := "111",
        region := "global", risk_score := 90, criticality := "critical",
        properties := [] }],
    edges := [
      { source_id := "UserX", target_id := "RoleY", type := "can_assume",
        weight := 8/10, properties := [] }] }

/-- The one attack path of Scenario A. -/
def scenAPath : AttackPath :=
  path_to_attack_path scenAGraph ["UserX", "RoleY"]

/-- Scenario A graph with a different edge weight (for weight-independence). -/
def scenAGraphW : Graph :=
  { scenAGraph with edges := [
      { source_id := "UserX", target_id := "RoleY", type := "can_assume",
        weight := 1/2, properties := [] }] }

/-- Two critical nodes `A`, `B` (in that insertion order) whose only edge runs
`B → A`, against the insertion order. -/
def twoCritGraph : Graph :=
  { nodes := [
      { id := "A", type := "s3_bucket", name := "A", account_id := "111",
        region := "us-east-1", risk_score := 50, criticality := "critical",
        properties := [] },
      { id := "B", type := "iam_user", name := "B", account_id := "111",
        region := "global", risk_score := 60, criticality := "critical",
        properties := [] }],
    edges := [
      { source_id := "B", target_id := "A", type := "can_access",
        weight := 7/10, properties := [] }] }

/-- A concrete cloud account for exercising `build_attack_graph`. -/
def testAccount : CloudAccount :=
  { account_id := "123456789012", regions := ["us-east-1"] }

/-- The blast radius computed from `RoleY` in Scenario A (no outgoing edges:
everything zero; recommendations fire on the critical IAM role). -/
def scenBBlast : BlastRadius :=
  { node_id := "RoleY", node_name := "RoleY", node_type := "iam_role",
    reachable_nodes := 0, critical_reachable := 0, average_risk := 0,
    total_risk := 0, high_value_targets := [],
    recommendations :=
      ["Apply principle of least privilege to IAM role",
       "Add conditional IAM policies to restrict access",
       "Enable IAM Access Analyzer for policy validation"] }

/-! ## Saturation lemmas: `reachList` computes the transitive closure -/

theorem mem_insertNew {acc : List String} {t x : String} :
    x ∈ insertNew acc t ↔ x ∈ acc ∨ x = t := by
  unfold insertNew
  split
  · next h => simp only [iff_self_or]; rintro rfl; exact h
  · simp [List.mem_append]

theorem nodup_insertNew {acc : List String} (t : String) (h : acc.Nodup) :
    (insertNew acc t).Nodup := by
  unfold insertNew
  split
  · exact h
  · next hn => simpa [List.nodup_append] using ⟨h, fun hx => hn hx⟩

theorem mem_foldl_insertNew {l acc : List String} {x : String} :
    x ∈ l.foldl insertNew acc ↔ x ∈ acc ∨ x ∈ l := by
  induction l generalizing acc with
  | nil => simp
  | cons t l ih =>
    simp only [List.foldl_cons, ih, mem_insertNew, List.mem_cons]
    tauto

theorem nodup_foldl_insertNew {l acc : List String} (h : acc.Nodup) :
    (l.foldl insertNew acc).Nodup := by
  induction l generalizing acc with
  | nil => exact h
  | cons t l ih => exact ih (nodup_insertNew t h)

theorem foldl_insertNew_extends (l acc : List String) :
    ∃ ext, l.foldl insertNew acc = acc ++ ext := by
  induction l generalizing acc with
  | nil => exact ⟨[], by simp⟩
  | cons t l ih =>
    rcases ih (insertNew acc t) with ⟨ext, hext⟩
    unfold insertNew at hext
    by_cases h : t ∈ acc
    · rw [List.foldl_cons]
      exact ⟨ext, by simpa [insertNew, h] using hext⟩
    · rw [List.foldl_cons]
      exact ⟨[t] ++ ext, by simpa [insertNew, h] using hext⟩

theorem subset_reachStep (G : Graph) (S : List String) : S ⊆ reachStep G S :=
  fun _ hx => mem_foldl_insertNew.mpr (Or.inl hx)

theorem mem_reachStep {G : Graph} {S : List String} {x : String} :
    x ∈ reachStep G S ↔
      x ∈ S ∨ ∃ e ∈ G.edges, e.source_id ∈ S ∧ e.target_id = x := by
  unfold reachStep
  rw [mem_foldl_insertNew]
  simp [List.mem_filter]
  tauto

theorem nodup_reachStep (G : Graph) {S : List String} (h : S.Nodup) :
    (reachStep G S).Nodup :=
  nodup_foldl_insertNew h

theorem reachStep_eq_or_lt (G : Graph) (S : List String) :
    reachStep G S = S ∨ S.length < (reachStep G S).length := by
  rcases foldl_insertNew_extends
    ((G.edges.filter (fun e => e.source_id ∈ S)).map (fun e => e.target_id)) S with
    ⟨ext, hext⟩
  rcases eq_or_ne ext [] with h | h
  · left; simp [reachStep, hext, h]
  · right
    rw [reachStep, hext, List.length_append]
    have : 0 < ext.length := List.length_pos.mpr h
    omega

theorem mem_iterate_of_mem {G : Graph} {S : List String} {x : String}
    (k : Nat) (hx : x ∈ S) : x ∈ (reachStep G)^[k] S := by
  induction k generalizing S with
  | zero => exact hx
  | succ k ih =>
    rw [Function.iterate_succ_apply]
    exact ih (subset_reachStep G S hx)

theorem mem_iterate_bound {G : Graph} {s x : String} {k : Nat}
    (hx : x ∈ (reachStep G)^[k] [s]) :
    x ∈ s :: G.edges.map (fun e => e.target_id) := by
  induction k with
  | zero =>
    have hxs : x = s := by simpa using hx
    simp [hxs]
  | succ k ih =>
    rw [Function.iterate_succ_apply'] at hx
    rcases mem_reachStep.mp hx with h | ⟨e, he, _, rfl⟩
    · exact ih h
    · exact List.mem_cons_of_mem _ (List.mem_map_of_mem _ he)

theorem nodup_iterate (G : Graph) {S : List String} (k : Nat) (h : S.Nodup) :
    ((reachStep G)^[k] S).Nodup := by
  induction k with
  | zero => exact h
  | succ k ih =>
    rw [Function.iterate_succ_apply']
    exact nodup_reachStep G ih

theorem iterate_growth (G : Graph) (S : List String) (k : Nat)
    (h : ∀ j, j < k → (reachStep G)^[j + 1] S ≠ (reachStep G)^[j] S) :
    S.length + k ≤ ((reachStep G)^[k] S).length := by
  induction k with
  | zero => simp
  | succ k ih =>
    have hk := ih (fun j hj => h j (Nat.lt_succ_of_lt hj))
    rcases reachStep_eq_or_lt G ((reachStep G)^[k] S) with heq | hlt
    · exact absurd (by rw [Function.iterate_succ_apply', heq]) (h k (Nat.lt_succ_self k))
    · rw [Function.iterate_succ_apply']
      omega

theorem reachList_fix (G : Graph) (s : String) :
    reachStep G (reachList G s) = reachList G s := by
  set N := G.edges.length + 1 with hN
  by_cases hfix : ∃ j, j < N ∧ (reachStep G)^[j + 1] [s] = (reachStep G)^[j] [s]
  · rcases hfix with ⟨j, hj, hfj⟩
    have hfixpt : reachStep G ((reachStep G)^[j] [s]) = (reachStep G)^[j] [s] :=
      (Function.iterate_succ_apply' (reachStep G) j [s]).symm.trans hfj
    have hiter : ∀ m, (reachStep G)^[j + m] [s] = (reachStep G)^[j] [s] := by
      intro m
      rw [Nat.add_comm, Function.iterate_add_apply]
      exact Function.iterate_fixed hfixpt m
    have hNj : N = j + (N - j) := by omega
    show reachStep G ((reachStep G)^[N] [s]) = (reachStep G)^[N] [s]
    rw [hNj, hiter (N - j), hfixpt, ← hiter (N - j), ← hNj]
  · push_neg at hfix
    exfalso
    have hgrow := iterate_growth G [s] N (fun j hj => hfix j hj)
    have hnodup : ((reachStep G)^[N] [s]).Nodup := nodup_iterate G N (by simp)
    have hsub : (reachStep G)^[N] [s] ⊆ s :: G.edges.map (fun e => e.target_id) :=
      fun x hx => mem_iterate_bound hx
    have hcard : ((reachStep G)^[N] [s]).length ≤ N := by
      have h1 : ((reachStep G)^[N] [s]).toFinset.card =
          ((reachStep G)^[N] [s]).length := List.toFinset_card_of_nodup hnodup
      have h2 : ((reachStep G)^[N] [s]).toFinset ⊆
          (s :: G.edges.map (fun e => e.target_id)).toFinset := fun x hx =>
        List.mem_toFinset.mpr (hsub (List.mem_toFinset.mp hx))
      have h3 := Finset.card_le_card h2
      have h4 := (s :: G.edges.map (fun e => e.target_id)).toFinset_card_le
      simp only [List.length_cons, List.length_map] at h4
      omega
    simp only [List.length_singleton] at hgrow
    omega

theorem reaches_of_mem_iterate {G : Graph} {s x : String} {k : Nat}
    (hx : x ∈ (reachStep G)^[k] [s]) : Reaches G s x := by
  induction k generalizing x with
  | zero =>
    simp only [Function.iterate_zero_apply, List.mem_singleton] at hx
    exact hx ▸ Relation.ReflTransGen.refl
  | succ k ih =>
    rw [Function.iterate_succ_apply'] at hx
    rcases mem_reachStep.mp hx with h | ⟨e, he, hsrc, rfl⟩
    · exact ih h
    · exact Relation.ReflTransGen.tail (ih hsrc) ⟨e, he, rfl, rfl⟩

theorem mem_reachList_of_reaches {G : Graph} {s x : String}
    (h : Reaches G s x) : x ∈ reachList G s := by
  induction h with
  | refl => exact mem_iterate_of_mem _ (by simp)
  | tail _ hbc ih =>
    rcases hbc with ⟨e, he, hsrc, htgt⟩
    have : _ ∈ reachStep G (reachList G s) :=
      mem_reachStep.mpr (Or.inr ⟨e, he, hsrc ▸ ih, htgt⟩)
    rwa [reachList_fix] at this

theorem mem_reachList {G : Graph} {s x : String} :
    x ∈ reachList G s ↔ Reaches G s x :=
  ⟨reaches_of_mem_iterate, mem_reachList_of_reaches⟩

theorem mem_descendants {G : Graph} {s x : String} :
    x ∈ descendants G s ↔ x ≠ s ∧ Reaches G s x := by
  simp [descendants, mem_reachList, and_comm]

theorem nodup_descendants (G : Graph) (s : String) : (descendants G s).Nodup :=
  (nodup_iterate G _ (by simp)).filter _

theorem adj_iff_mem_successors {G : Graph} {u v : String} :
    Adj G u v ↔ v ∈ G.successors u := by
  simp only [Adj, Graph.successors, List.mem_map, List.mem_filter, beq_iff_eq]
  constructor
  · rintro ⟨e, he, rfl, rfl⟩; exact ⟨e, ⟨he, rfl⟩, rfl⟩
  · rintro ⟨e, ⟨he, hsrc⟩, htgt⟩; exact ⟨e, he, hsrc, htgt⟩

/-! ## Blast radius: field characterization -/

theorem blast_fold_spec (G : Graph) (l : List String) (t0 : ℚ) (c0 : Nat)
    (h0 : List HighValueTarget) :
    l.foldl
      (fun (acc : ℚ × Nat × List HighValueTarget) node =>
        let nd := G.nodeData node
        let total := acc.1 + nd.risk_score
        if nd.criticality == "high" || nd.criticality == "critical" then
          (total, acc.2.1 + 1,
            acc.2.2 ++ [{ id := node, name := nd.name, type := nd.type,
                          risk_score := nd.risk_score }])
        else (total, acc.2.1, acc.2.2))
      (t0, c0, h0) =
    (t0 + (l.map (fun m => (G.nodeData m).risk_score)).sum,
     c0 + (l.filter (fun m => (G.nodeData m).criticality == "high" ||
            (G.nodeData m).criticality == "critical")).length,
     h0 ++ (l.filter (fun m => (G.nodeData m).criticality == "high" ||
            (G.nodeData m).criticality == "critical")).map
        (fun m => { id := m, name := (G.nodeData m).name,
                    type := (G.nodeData m).type,
                    risk_score := (G.nodeData m).risk_score })) := by
  induction l generalizing t0 c0 h0 with
  | nil => simp
  | cons m l ih =>
    simp only [List.foldl_cons, List.map_cons, List.sum_cons, List.filter_cons]
    by_cases hc : ((G.nodeData m).criticality == "high" ||
        (G.nodeData m).criticality == "critical") = true
    · simp only [hc, if_true, ih]
      refine Prod.ext ?_ (Prod.ext ?_ ?_) <;> simp [hc]
      · ring
      · omega
    · simp only [Bool.not_eq_true] at hc
      simp only [hc, Bool.false_eq_true, if_false, ih]
      refine Prod.ext ?_ (Prod.ext ?_ ?_) <;> simp [hc]
      ring

theorem calculate_blast_radius_fields {G : Graph} {n : String} {r : BlastRadius}
    (hr : calculate_blast_radius G n = Except.ok r) :
    r.reachable_nodes = (descendants G n).length ∧
    r.total_risk = ((descendants G n).map (fun m => (G.nodeData m).risk_score)).sum ∧
    r.critical_reachable = ((descendants G n).filter (fun m =>
      (G.nodeData m).criticality == "high" ||
        (G.nodeData m).criticality == "critical")).length ∧
    r.high_value_targets = ((descendants G n).filter (fun m =>
      (G.nodeData m).criticality == "high" ||
        (G.nodeData m).criticality == "critical")).map (fun m =>
      ({ id := m, name := (G.nodeData m).name, type := (G.nodeData m).type,
         risk_score := (G.nodeData m).risk_score } : HighValueTarget)) ∧
    r.average_risk = (if (descendants G n).isEmpty then 0
      else r.total_risk / (descendants G n).length) := by
  unfold calculate_blast_radius at hr
  split at hr
  · exact absurd hr (by simp)
  · rw [Except.ok.injEq] at hr
    subst hr
    rw [blast_fold_spec]
    refine ⟨rfl, by simp, by simp, by simp, by simp⟩

/-- **C4**: for every node `n` present in the graph, `calculate_blast_radius`
reports `reachable_nodes` equal to the size of the forward transitive closure
of `n` (nodes reachable by directed paths of any length), excluding `n`
itself; and for a node with no outgoing edges it reports
`reachable_nodes = 0`, `critical_reachable = 0`, `average_risk = 0` and an
empty `high_value_targets` list. -/
theorem blast_radius_counts_forward_closure {G : Graph} {n : String}
    {r : BlastRadius} (hr : calculate_blast_radius G n = Except.ok r) :
    r.reachable_nodes = {m : String | m ≠ n ∧ Reaches G n m}.ncard ∧
    (G.successors n = [] →
      r.reachable_nodes = 0 ∧ r.critical_reachable = 0 ∧
        r.average_risk = 0 ∧ r.high_value_targets = []) := by
  obtain ⟨h1, h2, h3, h4, h5⟩ := calculate_blast_radius_fields hr
  constructor
  · rw [h1]
    have hset : ((descendants G n).toFinset : Set String) =
        {m : String | m ≠ n ∧ Reaches G n m} := by
      ext m
      simp [List.mem_toFinset, mem_descendants]
    rw [← hset, Set.ncard_coe_Finset,
      List.toFinset_card_of_nodup (nodup_descendants G n)]
  · intro hsucc
    have hdesc : descendants G n = [] := by
      refine List.eq_nil_iff_forall_not_mem.mpr (fun m hm => ?_)
      obtain ⟨hne, hre⟩ := mem_descendants.mp hm
      rcases Relation.ReflTransGen.cases_head hre with heq | ⟨c, hadj, _⟩
      · exact hne heq.symm
      · have hc := adj_iff_mem_successors.mp hadj
        rw [hsucc] at hc
        exact absurd hc (List.not_mem_nil c)
    refine ⟨by simp [h1, hdesc], by simp [h3, hdesc], ?_, by simp [h4, hdesc]⟩
    rw [h5]
    simp [hdesc]

/-- Witness for C4 at Scenario A, node `RoleY` (no outgoing edges). -/
theorem blast_radius_counts_forward_closure_witness :
    scenBBlast.reachable_nodes =
      {m : String | m ≠ "RoleY" ∧ Reaches scenAGraph "RoleY" m}.ncard ∧
    (scenAGraph.successors "RoleY" = [] →
      scenBBlast.reachable_nodes = 0 ∧ scenBBlast.critical_reachable = 0 ∧
        scenBBlast.average_risk = 0 ∧ scenBBlast.high_value_targets = []) :=
  blast_radius_counts_forward_closure (by rfl)

/-- **C10**: the blast-radius result is internally consistent:
`critical_reachable` equals the length of `high_value_targets`, and
`total_risk` is the sum of `risk_score` over the reachable set. -/
theorem blast_radius_internally_consistent {G : Graph} {n : String}
    {r : BlastRadius} (hr : calculate_blast_radius G n = Except.ok r) :
    r.critical_reachable = r.high_value_targets.length ∧
    r.total_risk = ∑ m ∈ (descendants G n).toFinset, (G.nodeData m).risk_score := by
  obtain ⟨h1, h2, h3, h4, h5⟩ := calculate_blast_radius_fields hr
  refine ⟨by rw [h3, h4, List.length_map], ?_⟩
  rw [h2, List.sum_toFinset _ (nodup_descendants G n)]

/-- Witness for C10 at Scenario A, node `RoleY`. -/
theorem blast_radius_internally_consistent_witness :
    scenBBlast.critical_reachable = scenBBlast.high_value_targets.length ∧
    scenBBlast.total_risk =
      ∑ m ∈ (descendants scenAGraph "RoleY").toFinset,
        (scenAGraph.nodeData m).risk_score :=
  blast_radius_internally_consistent (by rfl)

/-! ## Simple-path search: simplicity and hop bound -/

theorem except_map_ok {ε α β : Type} {f : α → β} {x : Except ε α} {b : β}
    (h : x.map f = Except.ok b) : ∃ a, x = Except.ok a ∧ b = f a := by
  cases x with
  | error e => simp [Except.map] at h
  | ok a => exact ⟨a, rfl, by simpa [Except.map] using h.symm⟩

theorem simplePathsAux_spec (G : Graph) (targets : List String) :
    ∀ (fuel : Nat) (visited : List String) (current : String) (p : List String),
      p ∈ simplePathsAux G targets fuel visited current → visited.Nodup →
      p.Nodup ∧ p.length ≤ visited.length + fuel ∧
        ∃ ext, ext ≠ [] ∧ p = visited ++ ext := by
  intro fuel
  induction fuel with
  | zero =>
    intro visited current p hp _
    simp [simplePathsAux] at hp
  | succ fuel ih =>
    intro visited current p hp hnd
    simp only [simplePathsAux, List.mem_flatten, List.mem_map] at hp
    obtain ⟨l, ⟨child, hchild, rfl⟩, hpl⟩ := hp
    by_cases hmem : child ∈ visited
    · simp [hmem] at hpl
    · rw [if_neg hmem, List.mem_append] at hpl
      have hvnd : (visited ++ [child]).Nodup := by
        simp [List.nodup_append, hnd, hmem]
      rcases hpl with h1 | h2
      · by_cases ht : child ∈ targets
        · rw [if_pos ht, List.mem_singleton] at h1
          subst h1
          refine ⟨hvnd, ?_, ⟨[child], by simp, rfl⟩⟩
          simp only [List.length_append, List.length_singleton]
          omega
        · rw [if_neg ht] at h1
          exact absurd h1 (List.not_mem_nil p)
      · obtain ⟨hnd2, hlen, ext, hne, heq⟩ := ih (visited ++ [child]) child p h2 hvnd
        refine ⟨hnd2, ?_, ⟨child :: ext, by simp, by simp [heq]⟩⟩
        simp only [List.length_append, List.length_singleton] at hlen
        omega

theorem truthy_some {s : String} (h : s ≠ "") : truthy (some s) = true := by
  show (!s.isEmpty) = true
  cases hs : s.isEmpty
  · rfl
  · exact absurd ((String.isEmpty_iff s).mp hs) h

theorem all_simple_paths_spec {G : Graph} {a b : String} {L : Nat}
    {ps : List (List String)} (h : all_simple_paths G a b L = Except.ok ps)
    {p : List String} (hp : p ∈ ps) :
    p.Nodup ∧ 2 ≤ p.length ∧ p.length ≤ L + 1 := by
  unfold all_simple_paths at h
  split at h
  · exact absurd h (by simp)
  · split at h
    · rw [Except.ok.injEq] at h
      subst h
      exact absurd hp (List.not_mem_nil p)
    · split at h
      · rw [Except.ok.injEq] at h
        subst h
        exact absurd hp (List.not_mem_nil p)
      · rw [Except.ok.injEq] at h
        subst h
        obtain ⟨hnd, hlen, ext, hne, heq⟩ :=
          simplePathsAux_spec G _ L [a] a p hp (by simp)
        have hext : 1 ≤ ext.length := by
          cases ext with
          | nil => exact absurd rfl hne
          | cons x xs => simp
        refine ⟨hnd, ?_, ?_⟩
        · rw [heq]
          simp only [List.length_append, List.length_singleton]
          omega
        · simp only [List.length_singleton] at hlen
          omega

theorem ptap_nodes_ids (G : Graph) (p : List String) :
    (path_to_attack_path G p).nodes.map AttackNode.id = p := by
  simp only [path_to_attack_path, List.map_map]
  exact List.map_id p

theorem ptap_path_length (G : Graph) (p : List String) :
    (path_to_attack_path G p).path_length = p.length - 1 := by
  simp only [path_to_attack_path, List.length_map, List.length_zip,
    List.length_tail]
  omega

/-- **C5**: every path returned by the explicit source→target bounded search
visits no node twice and uses at most `max_path_length` edges. -/
theorem find_attack_paths_simple_and_bounded {G : Graph} {a b : String}
    {L : Nat} {l : List AttackPath} (ha : a ≠ "") (hb : b ≠ "")
    (h : find_attack_paths G (some a) (some b) L = Except.ok l)
    {ap : AttackPath} (hap : ap ∈ l) :
    (ap.nodes.map AttackNode.id).Nodup ∧ ap.path_length ≤ L := by
  obtain ⟨ps, hps, rfl⟩ := except_map_ok h
  have hap2 : ap ∈ sortByRiskDesc ps := List.take_sublist 20 _ |>.subset hap
  have hap3 : ap ∈ ps := by
    rw [sortByRiskDesc, List.mem_insertionSort] at hap2
    exact hap2
  rw [rawAttackPaths] at hps
  rw [if_pos (by rw [truthy_some ha, truthy_some hb]; rfl)] at hps
  rw [searchInto] at hps
  split at hps
  · next qs hAS =>
    rw [Except.ok.injEq] at hps
    subst hps
    simp only [List.nil_append, List.mem_map] at hap3
    obtain ⟨q, hq, rfl⟩ := hap3
    obtain ⟨hnd, hlen2, hlenL⟩ := all_simple_paths_spec hAS hq
    refine ⟨?_, ?_⟩
    · rw [ptap_nodes_ids]; exact hnd
    · rw [ptap_path_length]; omega
  · rw [Except.ok.injEq] at hps
    subst hps
    exact absurd hap3 (List.not_mem_nil ap)
  · exact absurd hps (by simp)

/-- Witness for C5 at Scenario A with `max_path_length = 5`. -/
theorem find_attack_paths_simple_and_bounded_witness :
    (scenAPath.nodes.map AttackNode.id).Nodup ∧ scenAPath.path_length ≤ 5 :=
  find_attack_paths_simple_and_bounded (by decide) (by decide)
    (show find_attack_paths scenAGraph (some "UserX") (some "RoleY") 5 =
      Except.ok [scenAPath] by rfl) (by simp)

/-! ## Ranking: sorted descending, top 20 -/

/-- **C6**: in every invocation mode, the returned list is sorted with
`total_risk` monotonically non-increasing and contains at most 20 paths. -/
theorem find_attack_paths_sorted_and_capped {G : Graph}
    {s t : Option String} {L : Nat} {l : List AttackPath}
    (h : find_attack_paths G s t L = Except.ok l) :
    l.Pairwise riskGE ∧ l.length ≤ 20 := by
  obtain ⟨ps, _, rfl⟩ := except_map_ok h
  constructor
  · exact (List.sorted_insertionSort riskGE ps).sublist (List.take_sublist 20 _)
  · rw [List.length_take]
    exact min_le_left 20 _

/-- Witness for C6 at Scenario A (explicit-endpoints mode). -/
theorem find_attack_paths_sorted_and_capped_witness :
    List.Pairwise riskGE [scenAPath] ∧ List.length [scenAPath] ≤ 20 :=
  find_attack_paths_sorted_and_capped
    (show find_attack_paths scenAGraph (some "UserX") (some "RoleY") 5 =
      Except.ok [scenAPath] by rfl)

/-! ## Scenario A -/

/-- **C7**: on the Scenario A graph, `find_attack_paths(UserX, RoleY)`
returns exactly one `AttackPath`, with `total_risk = 175` (the plain sum of
the node risk scores), `path_length = 1`, and
`critical_nodes = [UserX, RoleY]`. -/
theorem find_attack_paths_scenario_a :
    find_attack_paths scenAGraph (some "UserX") (some "RoleY") 5 =
      Except.ok [scenAPath] ∧
    scenAPath.total_risk = 175 ∧
    scenAPath.path_length = 1 ∧
    scenAPath.critical_nodes = ["UserX", "RoleY"] := by
  refine ⟨by rfl, ?_, by rfl, by rfl⟩
  show (85 : ℚ) + (90 + 0) = 175
  norm_num

/-! ## Visualization sizes -/

/-- **C9**: every node entry of the visualization payload carries the display
size given by the step function of its risk score, with strictly exclusive
thresholds; in particular risk 81 maps to size 20 and risk 80 to size 15. -/
theorem visualize_graph_node_sizes :
    (∀ (G : Graph), ∀ v ∈ (visualize_graph G).nodes,
      v.size = sizeSpec v.risk_score) ∧
    sizeSpec 81 = 20 ∧ sizeSpec 80 = 15 := by
  refine ⟨?_, ?_, ?_⟩
  · intro G v hv
    simp only [visualize_graph, List.mem_map] at hv
    obtain ⟨nd, _, rfl⟩ := hv
    rfl
  · norm_num [sizeSpec]
  · norm_num [sizeSpec]

/-- Witness for C9 at Scenario A's first payload node. -/
theorem visualize_graph_node_sizes_witness :
    ((visualize_graph scenAGraph).nodes.headD
        { id := "", name := "", type := "", group := "", risk_score := 0,
          criticality := "", account_id := "", region := "", size := 0 }).size =
      sizeSpec ((visualize_graph scenAGraph).nodes.headD
        { id := "", name := "", type := "", group := "", risk_score := 0,
          criticality := "", account_id := "", region := "", size := 0 }).risk_score :=
  visualize_graph_node_sizes.1 scenAGraph _ (by simp [visualize_graph, scenAGraph])

/-! ## Missing endpoints (C1) -/

/-- Counterexample to C1 as stated: with a source id absent from the graph,
`find_attack_paths` raises (`nx.NodeNotFound` is not `nx.NetworkXNoPath`, so
the `except` clause does not catch it), instead of returning an empty list. -/
theorem find_attack_paths_missing_source_raises :
    find_attack_paths scenAGraph (some "GhostNode") (some "RoleY") 5 =
      Except.error (NXError.nodeNotFound "GhostNode") := by rfl

theorem mem_charTargets_length {t x : String} (hx : x ∈ charTargets t) :
    x.length = 1 := by
  simp only [charTargets, List.mem_map] at hx
  obtain ⟨c, _, rfl⟩ := hx
  rfl

theorem simplePathsAux_no_target_nil {G : Graph} {targets : List String}
    (htargets : ∀ x ∈ targets, ∀ e ∈ G.edges, e.target_id ≠ x) :
    ∀ (fuel : Nat) (visited : List String) (current : String),
      simplePathsAux G targets fuel visited current = [] := by
  intro fuel
  induction fuel with
  | zero => intro _ _; rfl
  | succ fuel ih =>
    intro visited current
    simp only [simplePathsAux]
    rw [List.flatten_eq_nil_iff]
    intro l hl
    rw [List.mem_map] at hl
    obtain ⟨child, hchild, rfl⟩ := hl
    by_cases hmem : child ∈ visited
    · rw [if_pos hmem]
    · rw [if_neg hmem]
      have hnt : child ∉ targets := by
        intro ht
        simp only [Graph.successors, List.mem_map, List.mem_filter] at hchild
        obtain ⟨e, ⟨he, _⟩, htgt⟩ := hchild
        exact htargets child ht e he htgt
      rw [if_neg hnt, ih]
      rfl

/-- **C1 amended**: a search with both endpoints present never propagates an
exception, and a search whose target id is absent still yields an empty list
(the target string decays to its character set, which matches no edge target
in this system, where ids are ARN-like strings of length ≠ 1) — but a search
whose source id is absent raises an uncaught `NodeNotFound`. -/
theorem find_attack_paths_missing_endpoint_behaviour (G : Graph)
    (s t : String) (L : Nat) (hs : s ≠ "") (ht : t ≠ "") :
    (G.hasNode s = false →
      find_attack_paths G (some s) (some t) L =
        Except.error (NXError.nodeNotFound s)) ∧
    (G.hasNode s = true → G.hasNode t = false →
      (∀ e ∈ G.edges, e.target_id.length ≠ 1) →
      find_attack_paths G (some s) (some t) L = Except.ok []) := by
  constructor
  · intro h
    have hA : all_simple_paths G s t L =
        Except.error (NXError.nodeNotFound s) := by
      rw [all_simple_paths, if_pos h]
    rw [find_attack_paths, rawAttackPaths,
      if_pos (by rw [truthy_some hs, truthy_some ht]; rfl)]
    simp [searchInto, hA, Except.map]
  · intro hs2 ht2 hlen
    have hT : nxTargets G t = charTargets t := by
      rw [nxTargets, ht2]
      rfl
    have hA : all_simple_paths G s t L = Except.ok [] := by
      rw [all_simple_paths, hT, if_neg (by rw [hs2]; simp)]
      split
      · rfl
      · split
        · rfl
        · rw [simplePathsAux_no_target_nil (fun x hx e he hEq =>
            hlen e he (by rw [hEq]; exact mem_charTargets_length hx))]
    rw [find_attack_paths, rawAttackPaths,
      if_pos (by rw [truthy_some hs, truthy_some ht]; rfl)]
    simp [searchInto, hA, Except.map, sortByRiskDesc]

/-- Witness for the amended C1 at Scenario A: an absent source raises, and an
absent target (with both-present source) yields `ok []`. -/
theorem find_attack_paths_missing_endpoint_behaviour_witness :
    find_attack_paths scenAGraph (some "GhostSource") (some "RoleY") 5 =
      Except.error (NXError.nodeNotFound "GhostSource") ∧
    find_attack_paths scenAGraph (some "UserX") (some "GhostTarget") 5 =
      Except.ok [] :=
  ⟨(find_attack_paths_missing_endpoint_behaviour scenAGraph "GhostSource"
      "RoleY" 5 (by decide) (by decide)).1 (by rfl),
   (find_attack_paths_missing_endpoint_behaviour scenAGraph "UserX"
      "GhostTarget" 5 (by decide) (by decide)).2 (by rfl) (by rfl)
      (by decide)⟩

/-! ## Automatic mode searches one direction per pair (C2) -/

/-- Counterexample to C2 as stated: on `twoCritGraph` the automatic mode
returns no paths at all, although the bounded simple-path search in the
reverse direction (`B → A`, i.e. from the later-inserted critical node to the
earlier one) finds the path `[B, A]`.  Both directions are therefore not
searched. -/
theorem find_attack_paths_auto_one_direction_only :
    find_attack_paths twoCritGraph none none 5 = Except.ok [] ∧
    all_simple_paths twoCritGraph "B" "A" 5 = Except.ok [["B", "A"]] :=
  ⟨by rfl, by rfl⟩

theorem all_simple_paths_isOk {G : Graph} {a : String} (b : String) (L : Nat)
    (ha : G.hasNode a = true) :
    ∃ v, all_simple_paths G a b L = Except.ok v := by
  rw [all_simple_paths, if_neg (by rw [ha]; simp)]
  split
  · exact ⟨[], rfl⟩
  · split
    · exact ⟨[], rfl⟩
    · exact ⟨_, rfl⟩

theorem all_simple_paths_eq_ok {G : Graph} {a : String} (b : String) (L : Nat)
    (ha : G.hasNode a = true) :
    all_simple_paths G a b L = Except.ok (boundedSimplePaths G a b L) := by
  obtain ⟨v, hv⟩ := all_simple_paths_isOk b L ha
  rw [hv, boundedSimplePaths, hv]
  rfl

theorem searchInto_foldlM_ok {G : Graph} {L : Nat}
    (pairs : List (String × String))
    (hok : ∀ ab ∈ pairs, G.hasNode ab.1 = true) :
    ∀ acc : List AttackPath,
      pairs.foldlM (fun acc st => searchInto G L acc st.1 st.2) acc =
        Except.ok (acc ++ pairs.flatMap (fun ab =>
          (boundedSimplePaths G ab.1 ab.2 L).map (path_to_attack_path G))) := by
  induction pairs with
  | nil =>
    intro acc
    simp only [List.foldlM_nil, List.flatMap_nil, List.append_nil]
    rfl
  | cons ab rest ih =>
    intro acc
    have hbind : searchInto G L acc ab.1 ab.2 =
        Except.ok (acc ++ (boundedSimplePaths G ab.1 ab.2 L).map
          (path_to_attack_path G)) := by
      rw [searchInto,
        all_simple_paths_eq_ok ab.2 L (hok ab (List.mem_cons_self ab rest))]
    rw [List.foldlM_cons, hbind]
    show List.foldlM _ _ rest = _
    rw [ih (fun x hx => hok x (List.mem_cons_of_mem ab hx))]
    simp [List.flatMap_cons]

theorem hasNode_of_mem_nodes {G : Graph} {n : NodeData} (hn : n ∈ G.nodes) :
    G.hasNode n.id = true := by
  rw [Graph.hasNode, Graph.findNode, List.find?_isSome]
  exact ⟨n, hn, by simp⟩

theorem mem_orderedPairs {α : Type} {l : List α} {ab : α × α}
    (h : ab ∈ orderedPairs l) : ab.1 ∈ l ∧ ab.2 ∈ l := by
  induction l with
  | nil => simp [orderedPairs] at h
  | cons x xs ih =>
    simp only [orderedPairs, List.mem_append, List.mem_map] at h
    rcases h with ⟨y, hy, rfl⟩ | h2
    · exact ⟨List.mem_cons_self x xs, List.mem_cons_of_mem x hy⟩
    · obtain ⟨h1, h2⟩ := ih h2
      exact ⟨List.mem_cons_of_mem x h1, List.mem_cons_of_mem x h2⟩

/-- **C2 amended**: when neither endpoint is given, `find_attack_paths`
enumerates each unordered pair of critical nodes exactly once — as an ordered
pair `(i, j)` with `i < j` in node-insertion order — and collects, before
ranking, only the bounded simple paths from the earlier-inserted node to the
later-inserted one (a single direction per pair); no search in this mode
raises. -/
theorem find_attack_paths_auto_mode_characterization (G : Graph) (L : Nat) :
    rawAttackPaths G none none L =
      Except.ok ((orderedPairs ((G.nodes.filter (fun n =>
          n.criticality == "critical")).map (fun n => n.id))).flatMap
        (fun ab => (boundedSimplePaths G ab.1 ab.2 L).map
          (path_to_attack_path G))) := by
  rw [rawAttackPaths]
  rw [if_neg (by simp [truthy]), if_neg (by simp [truthy])]
  rw [searchInto_foldlM_ok _ ?hok []]
  · rw [List.nil_append]
  case hok =>
    intro ab hab
    have h1 := (mem_orderedPairs hab).1
    simp only [List.mem_map, List.mem_filter] at h1
    obtain ⟨n, ⟨hn, _⟩, heq⟩ := h1
    rw [← heq]
    exact hasNode_of_mem_nodes hn

/-! ## Sync failure in `build_attack_graph` (C3) -/

/-- Counterexample to C3 as stated: with a failing Neo4j sync the caller gets
the error, not the build summary — even though the in-memory graph was fully
populated (5 nodes, 4 edges for one account). -/
theorem build_attack_graph_sync_failure_counterexample :
    (build_attack_graph [testAccount] (Except.error "neo4j down")).2 =
      Except.error "neo4j down" ∧
    (build_attack_graph [testAccount] (Except.error "neo4j down")).1.nodes.length = 5 ∧
    (build_attack_graph [testAccount] (Except.error "neo4j down")).1.edges.length = 4 :=
  ⟨rfl, rfl, rfl⟩

/-- **C3 amended**: if the Neo4j write inside `build_attack_graph` fails, the
in-memory graph is exactly the graph a successful build would hold (the
failure does not roll back in-memory state), but the failure propagates
uncaught: the caller receives the exception, not the summary dict. -/
theorem build_attack_graph_sync_failure (accounts : List CloudAccount)
    (e : String) :
    build_attack_graph accounts (Except.error e) =
      ((build_attack_graph accounts (Except.ok ())).1, Except.error e) := by
  rfl

/-! ## Weight independence (C8) -/

theorem weightVariant_hasNode {G1 G2 : Graph} (h : G1.WeightVariant G2)
    (x : String) : G1.hasNode x = G2.hasNode x := by
  rw [Graph.hasNode, Graph.hasNode, Graph.findNode, Graph.findNode, h.1]

theorem weightVariant_nodeData {G1 G2 : Graph} (h : G1.WeightVariant G2)
    (x : String) : G1.nodeData x = G2.nodeData x := by
  rw [Graph.nodeData, Graph.nodeData, Graph.findNode, Graph.findNode, h.1]

theorem forall2_successors {u : String} :
    ∀ {l1 l2 : List EdgeData}, List.Forall₂ EdgeData.sameButWeight l1 l2 →
      (l1.filter (fun e => e.source_id == u)).map (fun e => e.target_id) =
        (l2.filter (fun e => e.source_id == u)).map (fun e => e.target_id) := by
  intro l1 l2 h
  induction h with
  | nil => rfl
  | cons h1 _ ih =>
    obtain ⟨hs, ht, -, -⟩ := h1
    simp only [List.filter_cons, hs, ht]
    split
    · simp only [List.map_cons, ht, ih]
    · exact ih

theorem weightVariant_successors {G1 G2 : Graph} (h : G1.WeightVariant G2)
    (u : String) : G1.successors u = G2.successors u := by
  rw [Graph.successors, Graph.successors]
  exact forall2_successors h.2

theorem weightVariant_nxTargets {G1 G2 : Graph} (h : G1.WeightVariant G2)
    (t : String) : nxTargets G1 t = nxTargets G2 t := by
  rw [nxTargets, nxTargets, weightVariant_hasNode h t]

theorem weightVariant_simplePathsAux {G1 G2 : Graph} (h : G1.WeightVariant G2)
    (targets : List String) :
    ∀ (fuel : Nat) (visited : List String) (current : String),
      simplePathsAux G1 targets fuel visited current =
        simplePathsAux G2 targets fuel visited current := by
  intro fuel
  induction fuel with
  | zero => intro _ _; rfl
  | succ fuel ih =>
    intro visited current
    simp only [simplePathsAux, weightVariant_successors h current]
    congr 1
    apply List.map_congr_left
    intro child _
    by_cases hmem : child ∈ visited
    · rw [if_pos hmem, if_pos hmem]
    · rw [if_neg hmem, if_neg hmem, ih]

theorem weightVariant_all_simple_paths {G1 G2 : Graph}
    (h : G1.WeightVariant G2) (a b : String) (L : Nat) :
    all_simple_paths G1 a b L = all_simple_paths G2 a b L := by
  rw [all_simple_paths, all_simple_paths, weightVariant_hasNode h a,
    weightVariant_nxTargets h b, weightVariant_simplePathsAux h _ L [a] a]

theorem forall2_findEdge {s t : String} :
    ∀ {l1 l2 : List EdgeData}, List.Forall₂ EdgeData.sameButWeight l1 l2 →
      (l1.find? (fun e => e.source_id == s && e.target_id == t)).map
          EdgeData.stripWeight =
        (l2.find? (fun e => e.source_id == s && e.target_id == t)).map
          EdgeData.stripWeight := by
  intro l1 l2 h
  induction h with
  | nil => rfl
  | @cons x y t1 t2 h1 _ ih =>
    obtain ⟨hs, ht, hty, hpr⟩ := h1
    by_cases hc : (x.source_id == s && x.target_id == t) = true
    · have e1 : List.find? (fun e => e.source_id == s && e.target_id == t)
          (x :: t1) = some x := List.find?_cons_of_pos _ hc
      have e2 : List.find? (fun e => e.source_id == s && e.target_id == t)
          (y :: t2) = some y :=
        List.find?_cons_of_pos _ (by rw [← hs, ← ht]; exact hc)
      rw [e1, e2]
      simp [EdgeData.stripWeight, hs, ht, hty, hpr]
    · have e1 : List.find? (fun e => e.source_id == s && e.target_id == t)
          (x :: t1) =
          List.find? (fun e => e.source_id == s && e.target_id == t) t1 :=
        List.find?_cons_of_neg _ hc
      have e2 : List.find? (fun e => e.source_id == s && e.target_id == t)
          (y :: t2) =
          List.find? (fun e => e.source_id == s && e.target_id == t) t2 :=
        List.find?_cons_of_neg _ (by rw [← hs, ← ht]; exact hc)
      rw [e1, e2]
      exact ih

theorem weightVariant_findEdge {G1 G2 : Graph} (h : G1.WeightVariant G2)
    (s t : String) :
    (G1.findEdge s t).map EdgeData.stripWeight =
      (G2.findEdge s t).map EdgeData.stripWeight := by
  rw [Graph.findEdge, Graph.findEdge]
  exact forall2_findEdge h.2

theorem stripWeight_edgeData (G : Graph) (s t : String) :
    (G.edgeData s t).stripWeight =
      ((G.findEdge s t).map EdgeData.stripWeight).getD
        Graph.defaultEdge.stripWeight := by
  rw [Graph.edgeData]
  cases G.findEdge s t <;> rfl

theorem weightVariant_ptap {G1 G2 : Graph} (h : G1.WeightVariant G2)
    (p : List String) :
    (path_to_attack_path G1 p).stripWeight =
      (path_to_attack_path G2 p).stripWeight := by
  have hed : ∀ s t, (G1.edgeData s t).stripWeight = (G2.edgeData s t).stripWeight := by
    intro s t
    rw [stripWeight_edgeData, stripWeight_edgeData, weightVariant_findEdge h]
  simp only [path_to_attack_path, AttackPath.stripWeight, List.map_map,
    AttackPath.mk.injEq]
  refine ⟨?_, ?_, ?_, ?_, ?_⟩
  · apply List.map_congr_left
    intro x _
    rw [weightVariant_nodeData h x]
  · apply List.map_congr_left
    intro st _
    have he := hed st.1 st.2
    have hty : (G1.edgeData st.1 st.2).stripWeight.type =
        (G2.edgeData st.1 st.2).stripWeight.type := congrArg EdgeData.type he
    have hpr : (G1.edgeData st.1 st.2).stripWeight.properties =
        (G2.edgeData st.1 st.2).stripWeight.properties :=
      congrArg EdgeData.properties he
    simp only [EdgeData.stripWeight] at hty hpr
    simp [Function.comp, AttackEdge.stripWeight, hty, hpr]
  · congr 1
    apply List.map_congr_left
    intro x _
    rw [weightVariant_nodeData h x]
  · simp
  · apply List.filter_congr
    intro x _
    rw [weightVariant_nodeData h x]

theorem stripWeight_total_risk (p : AttackPath) :
    p.stripWeight.total_risk = p.total_risk := rfl

theorem orderedInsert_map_stripWeight (a : AttackPath) (l : List AttackPath) :
    (l.orderedInsert riskGE a).map AttackPath.stripWeight =
      (l.map AttackPath.stripWeight).orderedInsert riskGE a.stripWeight := by
  induction l with
  | nil => rfl
  | cons b t ih =>
    simp only [List.orderedInsert, List.map_cons]
    have hc2 : riskGE a.stripWeight b.stripWeight ↔ riskGE a b := Iff.rfl
    by_cases hc : riskGE a b
    · rw [if_pos hc, if_pos (hc2.mpr hc), List.map_cons, List.map_cons]
    · rw [if_neg hc, if_neg (fun hx => hc (hc2.mp hx)), List.map_cons, ih]

theorem insertionSort_map_stripWeight (l : List AttackPath) :
    (l.insertionSort riskGE).map AttackPath.stripWeight =
      (l.map AttackPath.stripWeight).insertionSort riskGE := by
  induction l with
  | nil => rfl
  | cons a t ih =>
    simp only [List.insertionSort, List.map_cons, ← ih,
      orderedInsert_map_stripWeight]

theorem except_map_eq_cases {α β ε : Type} {f : α → β} {x y : Except ε α}
    (hxy : x.map f = y.map f) :
    (∃ v w, x = Except.ok v ∧ y = Except.ok w ∧ f v = f w) ∨
      (∃ e, x = Except.error e ∧ y = Except.error e) := by
  cases x with
  | error e =>
    cases y with
    | error e2 =>
      right
      simp only [Except.map, Except.error.injEq] at hxy
      exact ⟨e, rfl, by rw [hxy]⟩
    | ok w => simp [Except.map] at hxy
  | ok v =>
    cases y with
    | error e2 => simp [Except.map] at hxy
    | ok w =>
      left
      simp only [Except.map, Except.ok.injEq] at hxy
      exact ⟨v, w, rfl, rfl, hxy⟩

theorem weightVariant_searchInto {G1 G2 : Graph} (h : G1.WeightVariant G2)
    (L : Nat) {acc1 acc2 : List AttackPath}
    (hacc : acc1.map AttackPath.stripWeight = acc2.map AttackPath.stripWeight)
    (a b : String) :
    (searchInto G1 L acc1 a b).map (List.map AttackPath.stripWeight) =
      (searchInto G2 L acc2 a b).map (List.map AttackPath.stripWeight) := by
  have hA2 := weightVariant_all_simple_paths h a b L
  cases hA : all_simple_paths G1 a b L with
  | ok ps =>
    rw [searchInto, searchInto, ← hA2, hA]
    dsimp only [Except.map]
    congr 1
    rw [List.map_append, List.map_append, hacc, List.map_map, List.map_map]
    congr 1
    exact List.map_congr_left (fun p _ => weightVariant_ptap h p)
  | error e =>
    rw [searchInto, searchInto, ← hA2, hA]
    cases e with
    | noPath =>
      dsimp only [Except.map]
      rw [hacc]
    | nodeNotFound s => rfl

theorem weightVariant_foldlM_pairs {G1 G2 : Graph} (h : G1.WeightVariant G2)
    (L : Nat) :
    ∀ (pairs : List (String × String)) {acc1 acc2 : List AttackPath},
      acc1.map AttackPath.stripWeight = acc2.map AttackPath.stripWeight →
      (pairs.foldlM (fun acc st => searchInto G1 L acc st.1 st.2) acc1).map
          (List.map AttackPath.stripWeight) =
        (pairs.foldlM (fun acc st => searchInto G2 L acc st.1 st.2) acc2).map
          (List.map AttackPath.stripWeight) := by
  intro pairs
  induction pairs with
  | nil =>
    intro acc1 acc2 hacc
    simp only [List.foldlM_nil]
    exact congrArg Except.ok hacc
  | cons ab rest ih =>
    intro acc1 acc2 hacc
    rw [List.foldlM_cons, List.foldlM_cons]
    have hsi := weightVariant_searchInto h L hacc ab.1 ab.2
    rcases except_map_eq_cases hsi with ⟨v, w, hv, hw, hvw⟩ | ⟨e, hv, hw⟩
    · rw [hv, hw]
      exact ih hvw
    · rw [hv, hw]
      rfl

theorem weightVariant_foldlM_targets {G1 G2 : Graph} (h : G1.WeightVariant G2)
    (L : Nat) (src : String) :
    ∀ (ids : List String) {acc1 acc2 : List AttackPath},
      acc1.map AttackPath.stripWeight = acc2.map AttackPath.stripWeight →
      (ids.foldlM (fun acc target => searchInto G1 L acc src target) acc1).map
          (List.map AttackPath.stripWeight) =
        (ids.foldlM (fun acc target => searchInto G2 L acc src target) acc2).map
          (List.map AttackPath.stripWeight) := by
  intro ids
  induction ids with
  | nil =>
    intro acc1 acc2 hacc
    simp only [List.foldlM_nil]
    exact congrArg Except.ok hacc
  | cons tgt rest ih =>
    intro acc1 acc2 hacc
    rw [List.foldlM_cons, List.foldlM_cons]
    have hsi := weightVariant_searchInto h L hacc src tgt
    rcases except_map_eq_cases hsi with ⟨v, w, hv, hw, hvw⟩ | ⟨e, hv, hw⟩
    · rw [hv, hw]
      exact ih hvw
    · rw [hv, hw]
      rfl

theorem weightVariant_raw {G1 G2 : Graph} (h : G1.WeightVariant G2)
    (s t : Option String) (L : Nat) :
    (rawAttackPaths G1 s t L).map (List.map AttackPath.stripWeight) =
      (rawAttackPaths G2 s t L).map (List.map AttackPath.stripWeight) := by
  rw [rawAttackPaths, rawAttackPaths]
  by_cases h1 : (truthy s && truthy t) = true
  · rw [if_pos h1, if_pos h1]
    exact weightVariant_searchInto h L rfl _ _
  · rw [if_neg h1, if_neg h1]
    by_cases h2 : truthy s = true
    · rw [if_pos h2, if_pos h2, h.1]
      exact weightVariant_foldlM_targets h L _ _ rfl
    · rw [if_neg h2, if_neg h2, h.1]
      exact weightVariant_foldlM_pairs h L _ rfl

/-- **C8**: two graphs identical except for edge weights produce, for every
invocation, the same ranked attack paths (same node sequences, risks, and
rank order) — edge weight is never consumed by the ranking; it survives only
as payload on the returned edges, which weight-erasure removes. -/
theorem find_attack_paths_weight_invariant {G1 G2 : Graph}
    (h : G1.WeightVariant G2) (s t : Option String) (L : Nat) :
    (find_attack_paths G1 s t L).map (List.map AttackPath.stripWeight) =
      (find_attack_paths G2 s t L).map (List.map AttackPath.stripWeight) := by
  rw [find_attack_paths, find_attack_paths]
  have hraw := weightVariant_raw h s t L
  rcases except_map_eq_cases hraw with ⟨v, w, hv, hw, hvw⟩ | ⟨e, hv, hw⟩
  · rw [hv, hw]
    dsimp only [Except.map]
    have hmt : List.map AttackPath.stripWeight (List.take 20 (sortByRiskDesc v)) =
        List.map AttackPath.stripWeight (List.take 20 (sortByRiskDesc w)) := by
      rw [List.map_take, List.map_take, sortByRiskDesc, sortByRiskDesc,
        insertionSort_map_stripWeight, insertionSort_map_stripWeight, hvw]
    exact congrArg Except.ok hmt
  · rw [hv, hw]

/-- Witness for C8: Scenario A against the same graph with the edge weight
changed from 0.8 to 0.5. -/
theorem find_attack_paths_weight_invariant_witness :
    (find_attack_paths scenAGraph (some "UserX") (some "RoleY") 5).map
        (List.map AttackPath.stripWeight) =
      (find_attack_paths scenAGraphW (some "UserX") (some "RoleY") 5).map
        (List.map AttackPath.stripWeight) :=
  find_attack_paths_weight_invariant
    ⟨rfl, List.Forall₂.cons ⟨rfl, rfl, rfl, rfl⟩ List.Forall₂.nil⟩
    (some "UserX") (some "RoleY") 5

end CloudIntelligence
